import Mathlib

/-!
# Verification of the HTTP API pipeline resource (`assets/resource.py`)

Shallow embedding of the resource's core logic:

* `FileReference` — sentinel-prefixed file references (`@path`, `-@path`),
  bounded path resolution (`resolve_path`) and content loading (`contents`);
* the POSIX path helpers the resolution uses (`os.path.join`,
  `os.path.normpath`, `os.path.commonpath`), translated from CPython's
  `posixpath` module, which the source calls;
* `HTTPResource._interpolate` — recursive `str.format` templating over a
  JSON-shaped parameter tree;
* `HTTPResource._inject_file_contents` — recursive file-content injection;
* `HTTPResource.cmd` — request construction (TLS verify mode, JSON vs
  form-encoded body, the latter following the `requests` library's
  body-selection rule) and response status validation.

The filesystem is modelled as an explicit association list from path to
optional content (`none` = the path names a regular file whose read raises),
so that resolution can be studied for every filesystem state.  Machine-level
concerns (sockets, temp-file handles, logging) are outside the embedding;
the HTTP response is an oracle argument to `cmd`.
-/

set_option linter.unusedVariables false

/-- Decidable equality for `Except`, used to evaluate the embedded
fallible operations on concrete inputs. -/
def exceptDecEq {ε α : Type} [DecidableEq ε] [DecidableEq α] :
    (x y : Except ε α) → Decidable (x = y)
  | .ok a, .ok b =>
    if h : a = b then isTrue (by rw [h])
    else isFalse (fun hh => h (Except.ok.inj hh))
  | .error a, .error b =>
    if h : a = b then isTrue (by rw [h])
    else isFalse (fun hh => h (Except.error.inj hh))
  | .ok a, .error b => isFalse (fun hh => Except.noConfusion hh)
  | .error a, .ok b => isFalse (fun hh => Except.noConfusion hh)

instance {ε α : Type} [DecidableEq ε] [DecidableEq α] : DecidableEq (Except ε α) :=
  exceptDecEq

/-- Models Python's `str.startswith(pre)` on the character level. -/
def pyStartswith (s pre : String) : Bool := pre.data.isPrefixOf s.data

/-- Models Python's `str.endswith(suf)` on the character level. -/
def pyEndswith (s suf : String) : Bool := suf.data.isSuffixOf s.data

/-- Models Python's `str.split(sep)` for a one-character separator:
splits at every separator occurrence and keeps empty pieces, so
`"".split("/") = [""]` and `"a//b".split("/") = ["a", "", "b"]`. -/
def splitCharList (sep : Char) : List Char → List (List Char)
  | [] => [[]]
  | c :: cs =>
    match splitCharList sep cs with
    | r :: rs => if c = sep then [] :: r :: rs else (c :: r) :: rs
    | [] => if c = sep then [[], []] else [[c]]

/-- Python `str.split` lifted to `String`. -/
def pySplitChar (s : String) (sep : Char) : List String :=
  (splitCharList sep s.data).map String.mk

/-- Models Python's `sep.join(parts)`. -/
def pyJoinSep (sep : String) : List String → String
  | [] => ""
  | [x] => x
  | x :: xs => x ++ sep ++ pyJoinSep sep xs

/-- Models `os.path.join(a, b)` on POSIX (two arguments, as in the source's
`os.path.join(bound, path)`): an absolute second argument discards the
first; otherwise the parts are glued with a single separator. -/
def posixJoin (a b : String) : String :=
  if pyStartswith b "/" then b
  else if a = "" || pyEndswith a "/" then a ++ b
  else a ++ "/" ++ b

/-- One step of the component loop inside CPython's `posixpath.normpath`:
drop empty and `.` components, textually cancel `..` against a previous
component where allowed, keep leading `..`s of a relative path. -/
def normpathStep (hasInitialSlash : Bool) (acc : List String) (comp : String) :
    List String :=
  if comp = "" || comp = "." then acc
  else if comp != ".." || (!hasInitialSlash && acc.isEmpty) ||
      (!acc.isEmpty && acc.getLast? == some "..") then acc ++ [comp]
  else if !acc.isEmpty then acc.dropLast
  else acc

/-- Models `os.path.normpath` on POSIX, including the special treatment of
exactly two leading slashes and the empty-path-to-`.` rule.  Purely textual:
symlinks are not consulted, exactly as in the source. -/
def normpath (p : String) : String :=
  if p = "" then "."
  else
    let slashes : Nat :=
      if pyStartswith p "/" then
        (if pyStartswith p "//" && !pyStartswith p "///" then 2 else 1)
      else 0
    let comps := (pySplitChar p '/').foldl (normpathStep (slashes != 0)) []
    let joined := String.mk (List.replicate slashes '/') ++ pyJoinSep "/" comps
    if joined = "" then "." else joined

/-- Longest shared leading run of path components. -/
def commonStem : List String → List String → List String
  | a :: as, b :: bs => if a = b then a :: commonStem as bs else []
  | _, _ => []

/-- The error `os.path.commonpath` can raise. -/
inductive PathError where
  | mixedAbsRel
deriving Repr, DecidableEq

/-- Models `os.path.commonpath([p, q])` on POSIX for two paths: raises
`ValueError` when one path is absolute and the other relative; otherwise
splits both on `/`, discards empty and `.` components, and returns the
longest common leading run, re-prefixed with `/` for absolute inputs. -/
def commonpath2 (p q : String) : Except PathError String :=
  if pyStartswith p "/" != pyStartswith q "/" then .error .mixedAbsRel
  else
    let ps := (pySplitChar p '/').filter (fun c => c != "" && c != ".")
    let qs := (pySplitChar q '/').filter (fun c => c != "" && c != ".")
    .ok ((if pyStartswith p "/" then "/" else "") ++
      pyJoinSep "/" (commonStem ps qs))

/-- Filesystem model: the regular files, by path.  `some txt` is a readable
file with content `txt`; `none` is a path for which `os.path.isfile` holds
but reading raises an `OSError`. -/
abbrev FS := List (String × Option String)

/-- The failures `FileReference` resolution and reading can raise. -/
inductive ResolveError where
  /-- `path[0]` on an empty path raises `IndexError`. -/
  | emptyPath
  /-- `os.path.commonpath` raises `ValueError` on mixed absolute/relative
  paths. -/
  | mixedAbsRel
  /-- "Can not traverse outside of working directory". -/
  | traversal
  /-- "Path `...` not found or is not a file". -/
  | notFound
  /-- `io.open`/`read` raised. -/
  | readError
deriving Repr, DecidableEq

/-- The attributes of a `FileReference` object: the sentinel-stripped
`path`, the `strip` flag, and the bounding directory `bound`. -/
structure FileRef where
  path : String
  strip : Bool
  bound : String
deriving Repr, DecidableEq

/-- Models `FileReference.parse(value, bounding_path=b)`: first
`value.startswith("@")` takes `value[1:]`, then `value.startswith("-@")`
takes `value[2:]` with `strip=True`; everything else raises
`FileReference.Unparseable`, modelled as `none`.  Python slices count
characters, hence the drops on `String.data`. -/
def FileReference.parse (value : String) (boundingPath : String) : Option FileRef :=
  if pyStartswith value "@" then some ⟨⟨value.data.drop 1⟩, false, boundingPath⟩
  else if pyStartswith value "-@" then some ⟨⟨value.data.drop 2⟩, true, boundingPath⟩
  else none

/-- Models `if path[0] == os.path.sep: path = path[1:]` as a total function (the
empty-path `IndexError` is handled separately in `resolve_path`). -/
def stripLeadingSep (p : String) : String :=
  match p.data with
  | '/' :: rest => ⟨rest⟩
  | _ => p

/-- The canonicalized candidate the source builds before its traversal
check: `os.path.normpath(os.path.join(bound, path))` after stripping one
leading separator from `path`. -/
def candidatePath (path bound : String) : String :=
  normpath (posixJoin bound (stripLeadingSep path))

/-- Models `os.path.exists(p) and os.path.isfile(p)` over the filesystem model. -/
def fsHasFile (fs : FS) (p : String) : Bool := (fs.lookup p).isSome

/-- Models `FileReference.resolve_path(bound)` with `bound = ref.bound`
(the orchestrator always passes the resource directory, so the
`os.getcwd()` default is never taken).  The traversal check
`os.path.commonpath([path, bound]) != bound` runs before the existence
check, which is the only step consulting the filesystem. -/
def FileReference.resolve_path (ref : FileRef) (fs : FS) : Except ResolveError String :=
  if ref.path = "" then .error .emptyPath
  else
    let path := candidatePath ref.path ref.bound
    match commonpath2 path ref.bound with
    | .error _ => .error .mixedAbsRel
    | .ok cp =>
      if cp ≠ ref.bound then .error .traversal
      else if fsHasFile fs path then .ok path
      else .error .notFound

/-- Python whitespace for `str.strip()` (the ASCII part; the inputs here
are file contents, for which this is the relevant set). -/
def pyIsSpace (c : Char) : Bool :=
  c = ' ' || c = '\t' || c = '\n' || c = '\r' || c = '\x0b' || c = '\x0c'

/-- Models `str.strip()`: trim leading and trailing whitespace. -/
def pyStrip (s : String) : String :=
  ⟨((s.data.dropWhile pyIsSpace).reverse.dropWhile pyIsSpace).reverse⟩

/-- Models the `FileReference.contents` property: resolve, open, read, and
`strip()` when the reference asked for it. -/
def FileReference.contents (ref : FileRef) (fs : FS) : Except ResolveError String :=
  match FileReference.resolve_path ref fs with
  | .error e => .error e
  | .ok p =>
    match fs.lookup p with
    | some (some data) => .ok (if ref.strip then pyStrip data else data)
    | some none => .error .readError
    | none => .error .readError

/-- The failures `str.format` (and hence `_interpolate`) can raise. -/
inductive InterpError where
  /-- `KeyError`: a named placeholder's key is absent from the values. -/
  | keyError (k : String)
  /-- `IndexError`: auto-numbered or positional field, but `format` is
  called with keyword arguments only. -/
  | indexError
  /-- `ValueError`: a `\x7b` with no closing `\x7d`. -/
  | unmatchedLBrace
  /-- `ValueError`: single `\x7d` encountered in format string. -/
  | singleRBrace
  /-- `ValueError`: unexpected `\x7b` in field name. -/
  | badFieldName
  /-- The field carries a conversion (`!`), format-spec (`:`), attribute
  (`.`) or index (`[`) suffix, or a nested replacement field inside a
  format spec — constructs CPython's `str.format` processes further
  (successfully or not, depending on the value) but which are outside
  this embedding: the model abstains with this error instead of
  guessing, so that a modelled success or `KeyError` is always the
  program's behaviour. -/
  | unsupportedField
deriving Repr, DecidableEq

/-- Whether a format failure is the `KeyError` class. -/
def isKeyError : InterpError → Bool
  | .keyError _ => true
  | _ => false

/-- Models Python's `str.isdigit` for ASCII digits. -/
def pyIsDigit (c : Char) : Bool := '0' ≤ c && c ≤ '9'

/-- Substitution of one replacement field, given the accumulated field
name, following CPython's parsing order: the `arg_name` is the field name
up to any conversion (`!`), format spec (`:`), attribute (`.`) or index
(`[`) suffix.  An empty or all-digit `arg_name` is positional and raises
`IndexError` before anything else (`format` is called with keyword
arguments only).  When a suffix is present the embedding abstains with
`unsupportedField` instead of modelling the conversion/spec/accessor
machinery.  A plain named field — the only kind this resource's
templates use — is modelled exactly: an absent key raises `KeyError`, a
present key splices in that key's value (the empty format spec is the
identity on these string values). -/
def formatField (values : List (String × String)) (name : List Char) :
    Except InterpError (List Char) :=
  let key := name.takeWhile (fun c => !(c == ':' || c == '!' || c == '.' || c == '['))
  if key.isEmpty || key.all pyIsDigit then .error .indexError
  else if key != name then .error .unsupportedField
  else
    match values.lookup (⟨key⟩ : String) with
    | some v => .ok v.data
    | none => .error (.keyError ⟨key⟩)

/-- Core loop of CPython's `str.format` parser over the template
characters, with keyword arguments `values`.  The second argument is
`none` while scanning literal text and `some acc` inside a replacement
field whose name so far is `acc` reversed:
* `\x7b\x7b` and `\x7d\x7d` in literal text are brace escapes producing
  one brace; a lone `\x7b` (unterminated field) or `\x7d` raises
  `ValueError`;
* `\x7b field \x7d` substitutes via `formatField`; a `\x7b` in the
  `arg_name` part of a field (before any `:`) raises `ValueError`
  ("unexpected brace in field name"), exactly as in CPython; a `\x7b`
  after a `:` opens a nested replacement field of the format spec, which
  CPython processes but this embedding abstains from
  (`unsupportedField`). -/
def formatCore (values : List (String × String)) :
    List Char → Option (List Char) → Except InterpError (List Char)
  | [], none => .ok []
  | [], some _ => .error .unmatchedLBrace
  | '{' :: '{' :: rest, none => (formatCore values rest none).map (fun t => '{' :: t)
  | '{' :: rest, none => formatCore values rest (some [])
  | '}' :: '}' :: rest, none => (formatCore values rest none).map (fun t => '}' :: t)
  | '}' :: _, none => .error .singleRBrace
  | '{' :: _, some acc =>
    if acc.contains ':' then .error .unsupportedField else .error .badFieldName
  | '}' :: rest, some acc =>
    match formatField values acc.reverse with
    | .error e => .error e
    | .ok piece => (formatCore values rest none).map (fun t => piece ++ t)
  | c :: rest, none => (formatCore values rest none).map (fun t => c :: t)
  | c :: rest, some acc => formatCore values rest (some (c :: acc))

/-- Models `s.format(**values)`. -/
def pyFormat (s : String) (values : List (String × String)) : Except InterpError String :=
  (formatCore values s.data none).map String.mk

/-- Whether formatting a leaf either succeeds or fails with `KeyError`
(as opposed to a `ValueError`/`IndexError`-class failure or an
`unsupportedField` abstention of the embedding). -/
def formatErrIsKeyOnly (values : List (String × String)) (s : String) : Bool :=
  match pyFormat s values with
  | .ok _ => true
  | .error e => isKeyError e

/-- The parameter tree: the JSON-shaped data `_interpolate` and
`_inject_file_contents` walk (Python: str / int / bool / None / list /
dict with string keys; floats are not exercised by this resource). -/
inductive JSON where
  | str (s : String)
  | num (n : Int)
  | bool (b : Bool)
  | null
  | arr (xs : List JSON)
  | obj (kvs : List (String × JSON))
deriving Repr

/-- One insertion into a Python dict: an existing key keeps its slot and
gets the new value, a new key is appended in insertion order. -/
def dictInsert (m : List (String × JSON)) (k : String) (v : JSON) :
    List (String × JSON) :=
  if m.any (fun kv => kv.1 == k) then
    m.map (fun kv => if kv.1 == k then (kv.1, v) else kv)
  else m ++ [(k, v)]

/-- Build a Python dict from entries in order — the dict comprehension in
`_interpolate`; keys colliding after interpolation are last-write-wins. -/
def dictFromList (l : List (String × JSON)) : List (String × JSON) :=
  l.foldl (fun m kv => dictInsert m kv.1 kv.2) []

mutual
/-- Models `HTTPResource._interpolate(data, values)`: `str.format` on
string leaves, element-wise on lists, on both keys and values of dicts
(rebuilt by the comprehension), identity on other scalars.  A Python
exception aborts the whole walk: the embedding propagates the first
error in evaluation order. -/
def interpolate (values : List (String × String)) : JSON → Except InterpError JSON
  | .str s => (pyFormat s values).map .str
  | .num n => .ok (.num n)
  | .bool b => .ok (.bool b)
  | .null => .ok .null
  | .arr xs =>
    match interpolateList values xs with
    | .error e => .error e
    | .ok ys => .ok (.arr ys)
  | .obj kvs =>
    match interpolateEntries values kvs with
    | .error e => .error e
    | .ok kvs' => .ok (.obj (dictFromList kvs'))

/-- The list comprehension inside `_interpolate`. -/
def interpolateList (values : List (String × String)) :
    List JSON → Except InterpError (List JSON)
  | [] => .ok []
  | x :: xs =>
    match interpolate values x with
    | .error e => .error e
    | .ok y =>
      match interpolateList values xs with
      | .error e => .error e
      | .ok ys => .ok (y :: ys)

/-- The entry pass of the dict comprehension inside `_interpolate`:
format the key, interpolate the value, in order. -/
def interpolateEntries (values : List (String × String)) :
    List (String × JSON) → Except InterpError (List (String × JSON))
  | [] => .ok []
  | (k, v) :: kvs =>
    match pyFormat k values with
    | .error e => .error e
    | .ok k' =>
      match interpolate values v with
      | .error e => .error e
      | .ok v' =>
        match interpolateEntries values kvs with
        | .error e => .error e
        | .ok kvs' => .ok ((k', v') :: kvs')
end

mutual
/-- Models `HTTPResource._inject_file_contents(data, bounding_path)`: on a
string leaf, try `FileReference.parse`; `Unparseable` falls through to the
original string; a parsed reference is resolved and read, any failure is
logged and falls back to the original string; lists and dict values
recurse; dict keys are untouched. -/
def injectFileContents (bound : String) (fs : FS) : JSON → JSON
  | .str s =>
    match FileReference.parse s bound with
    | none => .str s
    | some ref =>
      match FileReference.contents ref fs with
      | .ok c => .str c
      | .error _ => .str s
  | .num n => .num n
  | .bool b => .bool b
  | .null => .null
  | .arr xs => .arr (injectList bound fs xs)
  | .obj kvs => .obj (injectEntries bound fs kvs)

/-- The list comprehension inside `_inject_file_contents`. -/
def injectList (bound : String) (fs : FS) : List JSON → List JSON
  | [] => []
  | x :: xs => injectFileContents bound fs x :: injectList bound fs xs

/-- The dict comprehension inside `_inject_file_contents` (values only). -/
def injectEntries (bound : String) (fs : FS) :
    List (String × JSON) → List (String × JSON)
  | [] => []
  | (k, v) :: kvs => (k, injectFileContents bound fs v) :: injectEntries bound fs kvs
end

mutual
/-- The coarse structural shape of a tree: string contents are erased,
scalar values kept, list structure kept element-wise, mappings collapsed
to a bare mapping marker.  This is the erasure interpolation preserves
even when rewritten mapping keys collide and entries merge
(last-write-wins); see `shapeFull` for the full erasure preserved in the
collision-free case. -/
def shape : JSON → JSON
  | .str _ => .str ""
  | .num n => .num n
  | .bool b => .bool b
  | .null => .null
  | .arr xs => .arr (shapeList xs)
  | .obj _ => .obj []

/-- Apply `shape` element-wise. -/
def shapeList : List JSON → List JSON
  | [] => []
  | x :: xs => shape x :: shapeList xs
end

mutual
/-- The full structural shape modulo the strings interpolation may
rewrite: string leaf contents and mapping keys are erased, everything
else — scalar values, list length and order, mapping entry lists and the
shapes of the values under them — is kept. -/
def shapeFull : JSON → JSON
  | .str _ => .str ""
  | .num n => .num n
  | .bool b => .bool b
  | .null => .null
  | .arr xs => .arr (shapeFullList xs)
  | .obj kvs => .obj (shapeFullEntries kvs)

/-- Apply `shapeFull` element-wise. -/
def shapeFullList : List JSON → List JSON
  | [] => []
  | x :: xs => shapeFull x :: shapeFullList xs

/-- Apply `shapeFull` to each entry's value, erasing the key. -/
def shapeFullEntries : List (String × JSON) → List (String × JSON)
  | [] => []
  | (_, v) :: kvs => ("", shapeFull v) :: shapeFullEntries kvs
end

mutual
/-- The structural shape modulo string leaf contents only: scalar
values, list length and order, and mapping keys, entry lists and entry
order are all kept.  This is the erasure file injection preserves —
injection rewrites nothing but string leaves. -/
def shapeKeyed : JSON → JSON
  | .str _ => .str ""
  | .num n => .num n
  | .bool b => .bool b
  | .null => .null
  | .arr xs => .arr (shapeKeyedList xs)
  | .obj kvs => .obj (shapeKeyedEntries kvs)

/-- Apply `shapeKeyed` element-wise. -/
def shapeKeyedList : List JSON → List JSON
  | [] => []
  | x :: xs => shapeKeyed x :: shapeKeyedList xs

/-- Apply `shapeKeyed` to each entry's value, keeping the key. -/
def shapeKeyedEntries : List (String × JSON) → List (String × JSON)
  | [] => []
  | (k, v) :: kvs => (k, shapeKeyed v) :: shapeKeyedEntries kvs
end

mutual
/-- Every string leaf of the tree, plus every mapping key — exactly the
strings `_interpolate` formats. -/
def stringLeaves : JSON → List String
  | .str s => [s]
  | .num _ => []
  | .bool _ => []
  | .null => []
  | .arr xs => stringLeavesList xs
  | .obj kvs => stringLeavesEntries kvs

/-- Apply `stringLeaves` element-wise. -/
def stringLeavesList : List JSON → List String
  | [] => []
  | x :: xs => stringLeaves x ++ stringLeavesList xs

/-- Apply `stringLeaves` over dict entries: the key, then the value's leaves. -/
def stringLeavesEntries : List (String × JSON) → List String
  | [] => []
  | (k, v) :: kvs => k :: (stringLeaves v ++ stringLeavesEntries kvs)
end

/-- Pairwise-distinct strings. -/
def distinctKeys : List String → Bool
  | [] => true
  | k :: ks => !ks.contains k && distinctKeys ks

mutual
/-- Every mapping in the tree has pairwise-distinct keys — an invariant of
trees parsed from JSON (Python dicts cannot hold duplicate keys). -/
def uniqueKeysTree : JSON → Bool
  | .str _ => true
  | .num _ => true
  | .bool _ => true
  | .null => true
  | .arr xs => uniqueKeysList xs
  | .obj kvs => distinctKeys (kvs.map Prod.fst) && uniqueKeysEntries kvs

/-- Apply `uniqueKeysTree` element-wise. -/
def uniqueKeysList : List JSON → Bool
  | [] => true
  | x :: xs => uniqueKeysTree x && uniqueKeysList xs

/-- Apply `uniqueKeysTree` over dict entries. -/
def uniqueKeysEntries : List (String × JSON) → Bool
  | [] => true
  | (_, v) :: kvs => uniqueKeysTree v && uniqueKeysEntries kvs
end

/-- The mapping key after interpolation: its formatted text when
`str.format` succeeds on it, the key itself otherwise (the fallback is
never reached on trees that interpolate successfully). -/
def formattedKey (values : List (String × String)) (k : String) : String :=
  match pyFormat k values with
  | .ok k' => k'
  | .error _ => k

mutual
/-- Every mapping of the tree keeps pairwise-distinct keys after its
keys are interpolated against `values` — the condition under which the
dict comprehension in `_interpolate` merges no entries (key collisions
are resolved last-write-wins, the one documented exception to full
shape preservation). -/
def interpKeysDistinct (values : List (String × String)) : JSON → Bool
  | .str _ => true
  | .num _ => true
  | .bool _ => true
  | .null => true
  | .arr xs => interpKeysDistinctList values xs
  | .obj kvs =>
    distinctKeys (kvs.map (fun kv => formattedKey values kv.1)) &&
      interpKeysDistinctEntries values kvs

/-- Apply `interpKeysDistinct` element-wise. -/
def interpKeysDistinctList (values : List (String × String)) : List JSON → Bool
  | [] => true
  | x :: xs => interpKeysDistinct values x && interpKeysDistinctList values xs

/-- Apply `interpKeysDistinct` to each entry's value. -/
def interpKeysDistinctEntries (values : List (String × String)) :
    List (String × JSON) → Bool
  | [] => true
  | (_, v) :: kvs => interpKeysDistinct values v && interpKeysDistinctEntries values kvs
end

/-- A string with no brace characters at all (so `str.format` neither
substitutes nor un-escapes anything in it). -/
def strBraceFree (s : String) : Bool := s.data.all (fun c => !(c == '{' || c == '}'))

/-- Induction over the parameter tree with element-wise hypotheses for the
nested lists. -/
def jsonIndOn {motive : JSON → Prop}
    (hstr : ∀ s, motive (.str s)) (hnum : ∀ n, motive (.num n))
    (hbool : ∀ b, motive (.bool b)) (hnull : motive .null)
    (harr : ∀ xs, (∀ x ∈ xs, motive x) → motive (.arr xs))
    (hobj : ∀ kvs, (∀ kv ∈ kvs, motive kv.2) → motive (.obj kvs)) :
    ∀ t, motive t
  | .str s => hstr s
  | .num n => hnum n
  | .bool b => hbool b
  | .null => hnull
  | .arr xs => harr xs (fun x hx =>
      jsonIndOn hstr hnum hbool hnull harr hobj x)
  | .obj kvs => hobj kvs (fun kv hkv =>
      jsonIndOn hstr hnum hbool hnull harr hobj kv.2)
termination_by t => sizeOf t
decreasing_by
  · have := List.sizeOf_lt_of_mem hx
    simp only [JSON.arr.sizeOf_spec]
    omega
  · have h1 := List.sizeOf_lt_of_mem hkv
    have h2 : sizeOf kv.2 < sizeOf kv := by
      obtain ⟨a, b⟩ := kv
      simp only [Prod.mk.sizeOf_spec]
      omega
    simp only [JSON.obj.sizeOf_spec]
    omega

/-- Python truthiness of a JSON-shaped value (`if form_data:`):
`None`, `False`, `0`, `""`, `[]` and `\x7b\x7d` are falsy. -/
def pyTruthy : JSON → Bool
  | .null => false
  | .bool b => b
  | .num n => n != 0
  | .str s => s != ""
  | .arr xs => !xs.isEmpty
  | .obj kvs => !kvs.isEmpty

/-- Lowercase hex digit. -/
def hexDigit (n : Nat) : Char :=
  if n < 10 then Char.ofNat ('0'.toNat + n)
  else Char.ofNat ('a'.toNat + (n - 10))

/-- JSON string escaping as in CPython's `json.dumps` with
`ensure_ascii=False`: quote, backslash, and control characters are
escaped (`\n`, `\t`, `\r`, `\b`, `\f`, `\u00XX`), everything else —
non-ASCII included — passes through verbatim. -/
def jsonEscapeChar (c : Char) : List Char :=
  if c = '"' then ['\\', '"']
  else if c = '\\' then ['\\', '\\']
  else if c = '\n' then ['\\', 'n']
  else if c = '\t' then ['\\', 't']
  else if c = '\r' then ['\\', 'r']
  else if c = '\x08' then ['\\', 'b']
  else if c = '\x0c' then ['\\', 'f']
  else if c.toNat < 32 then
    ['\\', 'u', '0', '0', hexDigit (c.toNat / 16), hexDigit (c.toNat % 16)]
  else [c]

/-- The quoted, escaped encoding of one string, shared by string values
and object keys in `json.dumps`. -/
def pyJsonQuote (s : String) : String :=
  "\"" ++ ⟨s.data.flatMap jsonEscapeChar⟩ ++ "\""

mutual
/-- Models `json.dumps(v, ensure_ascii=False)` with the default
separators `", "` and `": "` (no indent), as called on each `form_data`
value. -/
def pyJsonDumps : JSON → String
  | .str s => pyJsonQuote s
  | .num n => toString n
  | .bool b => if b then "true" else "false"
  | .null => "null"
  | .arr xs => "[" ++ pyJoinSep ", " (pyJsonDumpsList xs) ++ "]"
  | .obj kvs => "\x7b" ++ pyJoinSep ", " (pyJsonDumpsEntries kvs) ++ "\x7d"

/-- Apply `json.dumps` element-wise over an array. -/
def pyJsonDumpsList : List JSON → List String
  | [] => []
  | x :: xs => pyJsonDumps x :: pyJsonDumpsList xs

/-- Apply `json.dumps` entry-wise over an object. -/
def pyJsonDumpsEntries : List (String × JSON) → List String
  | [] => []
  | (k, v) :: kvs =>
    (pyJsonQuote k ++ ": " ++ pyJsonDumps v) :: pyJsonDumpsEntries kvs
end

/-- The `verify` argument handed to `requests.request`. -/
inductive Verify where
  | flag (b : Bool)
  | caPath (p : String)
deriving Repr, DecidableEq

/-- The failures `HTTPResource.cmd` can raise. -/
inductive CmdError where
  /-- `UnboundLocalError` (a `NameError`): the `ssl_verify` string branch
  reads the local `verify` before any assignment; a non-bool non-string
  `ssl_verify` likewise leaves `verify` unassigned at the request call. -/
  | nameError
  /-- `KeyError`: `data['uri']` with no `uri` key. -/
  | keyErrorUri
  /-- `AttributeError`: `form_data.items()` on a truthy non-mapping. -/
  | attrError
  /-- "Unexpected response \x7bstatus\x7d", carrying the status code. -/
  | invocation (status : Int)
  /-- `TypeError`: `in` applied to a non-container `ok_responses`. -/
  | typeErr
deriving Repr, DecidableEq

/-- The body `requests` actually sends. -/
inductive Body where
  | empty
  | jsonBody (j : JSON)
  | formBody (fields : List (String × String))
deriving Repr

/-- Models the body selection of the `requests` library
(`PreparedRequest.prepare_body`, which `HTTPResource.cmd` calls with both
`json=` and `data=`): the `json` argument is encoded only when `data` is
falsy; truthy `data` wins and `json` is ignored. -/
def prepareBody (reqData : Option (List (String × String))) (jsonData : Option JSON) :
    Body :=
  match reqData with
  | some fields =>
    if fields.isEmpty then
      match jsonData with
      | some j => .jsonBody j
      | none => .empty
    else .formBody fields
  | none =>
    match jsonData with
    | some j => .jsonBody j
    | none => .empty

/-- The HTTP response, an oracle: what the remote server answers. -/
structure Response where
  status : Int
  text : String
deriving Repr, DecidableEq

/-- The request `HTTPResource.cmd` hands to `requests.request`. -/
structure PreparedRequest where
  method : JSON
  uri : JSON
  headers : JSON
  verify : Verify
  body : Body
deriving Repr

/-- Models lines 113–119 of `cmd`: a bool `ssl_verify` is used directly;
a string `ssl_verify` hits `verify = str(tempfile.NamedTemporaryFile(...)
.write(verify))`, which reads the not-yet-assigned local `verify` and so
raises `UnboundLocalError` (and, were the argument corrected, would still
pass `str` of `write`'s byte count, not the temp file's path); any other
type assigns nothing, so the later `verify=verify` raises. -/
def computeVerify : JSON → Except CmdError Verify
  | .bool b => .ok (.flag b)
  | .str _ => .error .nameError
  | _ => .error .nameError

/-- Models `data.get('json', None)`: an explicit JSON `null` is Python `None`,
indistinguishable from an absent key here. -/
def cmdJsonData (data : List (String × JSON)) : Option JSON :=
  match data.lookup "json" with
  | none => none
  | some .null => none
  | some j => some j

/-- Models `data.get('ok_responses', [200, 201, 202, 204])`. -/
def cmdOkResponses (data : List (String × JSON)) : JSON :=
  (data.lookup "ok_responses").getD (.arr [.num 200, .num 201, .num 202, .num 204])

/-- Python `==` between a JSON-shaped list element and an int status code
(`True == 1` and `False == 0` hold in Python). -/
def pyEqNum (j : JSON) (n : Int) : Bool :=
  match j with
  | .num m => m == n
  | .bool b => (if b then (1 : Int) else 0) == n
  | _ => false

/-- Models lines 105–126 of `HTTPResource.cmd`: extract the request
fields from `data` (defaults as in the source), compute the verify mode,
JSON-encode the `form_data` fields when `form_data` is truthy, and build
the single request handed to `requests.request`. -/
def buildRequest (data : List (String × JSON)) : Except CmdError PreparedRequest :=
  match data.lookup "uri" with
  | none => .error .keyErrorUri
  | some uri =>
    let method := (data.lookup "method").getD (.str "GET")
    let headers := (data.lookup "headers").getD (.obj [])
    let jsonData := cmdJsonData data
    let sslVerify := (data.lookup "ssl_verify").getD (.bool true)
    let formData := data.lookup "form_data"
    match computeVerify sslVerify with
    | .error e => .error e
    | .ok verify =>
      let reqData : Except CmdError (Option (List (String × String))) :=
        match formData with
        | none => .ok none
        | some fd =>
          if pyTruthy fd then
            match fd with
            | .obj kvs => .ok (some (kvs.map (fun kv => (kv.1, pyJsonDumps kv.2))))
            | _ => .error .attrError
          else .ok none
      match reqData with
      | .error e => .error e
      | .ok rd => .ok ⟨method, uri, headers, verify, prepareBody rd jsonData⟩

/-- Models `HTTPResource.cmd` end to end: build and fire the request
(`resp` being what the wire returns), then validate
`response.status_code not in ok_responses`, raising the invocation error
with the status code, and otherwise return `(status_code, text)`. -/
def cmd (data : List (String × JSON)) (resp : Response) :
    Except CmdError (Int × String) :=
  match buildRequest data with
  | .error e => .error e
  | .ok _ =>
    match cmdOkResponses data with
    | .arr oks =>
      if oks.any (fun j => pyEqNum j resp.status) then .ok (resp.status, resp.text)
      else .error (.invocation resp.status)
    | _ => .error .typeErr

/-- C4.  On a string leaf that parses as a file reference, injection
replaces the leaf by the file contents exactly when resolution and
reading succeed, and returns the original leaf unchanged on every
resolution/read failure. -/
theorem inject_failure_falls_back (s bound : String) (fs : FS) (ref : FileRef)
    (hp : FileReference.parse s bound = some ref) :
    (∀ e, FileReference.contents ref fs = .error e →
      injectFileContents bound fs (.str s) = .str s) ∧
    (∀ c, FileReference.contents ref fs = .ok c →
      injectFileContents bound fs (.str s) = .str c) := by
  constructor
  · intro e he
    simp [injectFileContents, hp, he]
  · intro c hc
    simp [injectFileContents, hp, hc]

/-- C4, witness: under bound `/opt` with one readable file
`/opt/data.txt`, the reference `@nope` fails to resolve and degrades to
the literal leaf, while `@data.txt` resolves and is replaced by the file
contents. -/
theorem inject_failure_falls_back_witness :
    injectFileContents "/opt" [("/opt/data.txt", some "hello")] (.str "@nope") =
      .str "@nope" ∧
    injectFileContents "/opt" [("/opt/data.txt", some "hello")] (.str "@data.txt") =
      .str "hello" :=
  ⟨(inject_failure_falls_back "@nope" "/opt" [("/opt/data.txt", some "hello")]
      ⟨"nope", false, "/opt"⟩ (by decide)).1 .notFound (by decide),
   (inject_failure_falls_back "@data.txt" "/opt" [("/opt/data.txt", some "hello")]
      ⟨"data.txt", false, "/opt"⟩ (by decide)).2 "hello" (by decide)⟩

/-- C1, counterexample.  Two escaping references whose resolution fails,
but not with the traversal error: `"//x"` against the relative bound
`"work"` joins to the absolute `"/x"`, so `os.path.commonpath` raises
`ValueError` before the traversal error can be produced; and the empty
path (from the leaf `"@"`) against the unnormalized bound `"a/./b"` has a
canonical ancestry `"a/b" ≠ "a/./b"` yet fails with `IndexError` at
`path[0]`.  In both cases the canonicalized candidate's ancestry differs
from the bound, yet the resolution error is not the traversal error. -/
theorem resolve_outside_counterexample :
    (commonpath2 (candidatePath "//x" "work") "work" ≠ .ok "work" ∧
      FileReference.resolve_path ⟨"//x", false, "work"⟩ [] =
        .error .mixedAbsRel) ∧
    (commonpath2 (candidatePath "" "a/./b") "a/./b" ≠ .ok "a/./b" ∧
      FileReference.resolve_path ⟨"", false, "a/./b"⟩ [] =
        .error .emptyPath) := by
  decide

/-- C1, amended.  For every non-empty reference path `p` and bounding
directory `B`, if `os.path.commonpath` succeeds on the canonicalized
candidate and the bound and its result differs from `B`, then resolution
fails with the traversal error — for every filesystem state, the traversal
check being performed before the existence check. -/
theorem resolve_outside_traversal (p B : String) (st : Bool) (fs : FS)
    (cp : String) (hne : p ≠ "")
    (hcp : commonpath2 (candidatePath p B) B = .ok cp) (hout : cp ≠ B) :
    FileReference.resolve_path ⟨p, st, B⟩ fs = .error .traversal := by
  simp only [FileReference.resolve_path, hne, if_false, hcp, hout, if_true]
  simp [hne, hout]

/-- C1, witness: `-@../../etc/passwd` under `/opt/resource-tests` is
rejected as traversal even on a filesystem where `/etc/passwd` exists. -/
theorem resolve_outside_traversal_witness :
    FileReference.resolve_path ⟨"../../etc/passwd", true, "/opt/resource-tests"⟩
      [("/etc/passwd", some "root:x:0:0")] = .error .traversal :=
  resolve_outside_traversal "../../etc/passwd" "/opt/resource-tests" true
    [("/etc/passwd", some "root:x:0:0")] "/" (by decide) (by decide) (by decide)

/-- C5.  Sentinel classification of `FileReference.parse`: a value
beginning with `-@` parses to `strip = true` and the path after the two
sentinel characters; a value beginning with `@` parses to `strip = false`
and the path after the sentinel; a value beginning with neither is
`Unparseable` (`none`), not a reference. -/
theorem parse_sentinel_classification (v b : String) :
    (∀ r : String, v = "-@" ++ r → FileReference.parse v b = some ⟨r, true, b⟩) ∧
    (∀ r : String, v = "@" ++ r → FileReference.parse v b = some ⟨r, false, b⟩) ∧
    ((∀ r : String, v ≠ "@" ++ r) → (∀ r : String, v ≠ "-@" ++ r) →
      FileReference.parse v b = none) := by
  refine ⟨?_, ?_, ?_⟩
  · rintro ⟨rd⟩ rfl
    simp [FileReference.parse, pyStartswith, String.data_append, List.isPrefixOf]
  · rintro ⟨rd⟩ rfl
    simp [FileReference.parse, pyStartswith, String.data_append, List.isPrefixOf]
  · intro h1 h2
    obtain ⟨data⟩ := v
    match data with
    | [] => rfl
    | c :: cs =>
      have hc1 : ('@' == c) = false := by
        rw [beq_eq_false_iff_ne]
        intro hc
        exact h1 ⟨cs⟩ (by subst hc; rfl)
      by_cases hc2 : c = '-'
      · subst hc2
        match cs with
        | [] =>
          simp [FileReference.parse, pyStartswith, List.isPrefixOf, hc1]
        | d :: ds =>
          have hd : ('@' == d) = false := by
            rw [beq_eq_false_iff_ne]
            intro hd
            exact h2 ⟨ds⟩ (by subst hd; rfl)
          simp [FileReference.parse, pyStartswith, List.isPrefixOf, hc1, hd]
      · have hc2' : ('-' == c) = false := by
          rw [beq_eq_false_iff_ne]
          intro hc
          exact hc2 hc.symm
        simp [FileReference.parse, pyStartswith, List.isPrefixOf, hc1, hc2']

/-- C5, witness at the three classes of values. -/
theorem parse_sentinel_classification_witness :
    FileReference.parse "-@data/id.txt" "/opt" = some ⟨"data/id.txt", true, "/opt"⟩ ∧
    FileReference.parse "@data/id.txt" "/opt" = some ⟨"data/id.txt", false, "/opt"⟩ ∧
    FileReference.parse "plain" "/opt" = none :=
  ⟨(parse_sentinel_classification "-@data/id.txt" "/opt").1 "data/id.txt" rfl,
   (parse_sentinel_classification "@data/id.txt" "/opt").2.1 "data/id.txt" rfl,
   (parse_sentinel_classification "plain" "/opt").2.2
     (by intro r h; have := congrArg String.data h; simp [String.data_append] at this)
     (by intro r h; have := congrArg String.data h; simp [String.data_append] at this)⟩

/-- The parser `formatCore` passes brace-free literal text through unchanged. -/
theorem formatCore_brace_free (values : List (String × String)) :
    ∀ cs : List Char, cs.all (fun c => !(c == '{' || c == '}')) = true →
      formatCore values cs none = .ok cs := by
  intro cs
  induction cs with
  | nil => intro h; rfl
  | cons c rest ih =>
    intro h
    simp only [List.all_cons, Bool.and_eq_true, Bool.not_eq_eq_eq_not, Bool.not_true,
      Bool.or_eq_false_iff, beq_eq_false_iff_ne] at h
    obtain ⟨⟨hc1, hc2⟩, hrest⟩ := h
    rw [formatCore.eq_def]
    split <;> simp_all [List.all_cons, Except.map]

/-- Python `str.format` is the identity on brace-free strings. -/
theorem pyFormat_brace_free (values : List (String × String)) (s : String)
    (h : strBraceFree s = true) : pyFormat s values = .ok s := by
  obtain ⟨d⟩ := s
  simp only [strBraceFree] at h
  simp only [pyFormat, formatCore_brace_free values d h, Except.map]

/-- Membership in the leaves of a list of trees. -/
theorem stringLeavesList_mem (s : String) :
    ∀ xs : List JSON, s ∈ stringLeavesList xs ↔ ∃ x ∈ xs, s ∈ stringLeaves x := by
  intro xs
  induction xs with
  | nil => simp [stringLeavesList]
  | cons a as ih => simp [stringLeavesList, List.mem_append, ih]

/-- Membership in the leaves of dict entries: a key, or a leaf of a value. -/
theorem stringLeavesEntries_mem (s : String) :
    ∀ kvs : List (String × JSON), s ∈ stringLeavesEntries kvs ↔
      ∃ kv ∈ kvs, s = kv.1 ∨ s ∈ stringLeaves kv.2 := by
  intro kvs
  induction kvs with
  | nil => simp [stringLeavesEntries]
  | cons a as ih =>
    obtain ⟨k, v⟩ := a
    constructor
    · intro h
      simp only [stringLeavesEntries, List.mem_cons, List.mem_append] at h
      rcases h with h | h
      · exact ⟨(k, v), List.mem_cons_self _ _, Or.inl h⟩
      rcases h with h | h
      · exact ⟨(k, v), List.mem_cons_self _ _, Or.inr h⟩
      · obtain ⟨kv, hkv, hor⟩ := ih.mp h
        exact ⟨kv, List.mem_cons_of_mem _ hkv, hor⟩
    · rintro ⟨kv, hkv, hor⟩
      simp only [stringLeavesEntries, List.mem_cons, List.mem_append]
      rcases List.mem_cons.mp hkv with rfl | hkv'
      · rcases hor with rfl | h
        · exact Or.inl rfl
        · exact Or.inr (Or.inl h)
      · exact Or.inr (Or.inr (ih.mpr ⟨kv, hkv', hor⟩))

/-- A successful list interpolation interpolates every element. -/
theorem interpolateList_ok (values : List (String × String)) :
    ∀ (xs ys : List JSON), interpolateList values xs = .ok ys →
      ∀ x ∈ xs, ∃ y, interpolate values x = .ok y := by
  intro xs
  induction xs with
  | nil => intro ys h x hx; cases hx
  | cons a as ih =>
    intro ys h x hx
    simp only [interpolateList] at h
    cases ha : interpolate values a with
    | error e => rw [ha] at h; simp at h
    | ok y =>
      rw [ha] at h
      cases hl : interpolateList values as with
      | error e => rw [hl] at h; simp at h
      | ok ys' =>
        rcases List.mem_cons.mp hx with rfl | hx'
        · exact ⟨y, ha⟩
        · exact ih ys' hl x hx'

/-- A successful entries interpolation formats every key and interpolates
every value. -/
theorem interpolateEntries_ok (values : List (String × String)) :
    ∀ (kvs kvs' : List (String × JSON)), interpolateEntries values kvs = .ok kvs' →
      ∀ kv ∈ kvs, (∃ r, pyFormat kv.1 values = .ok r) ∧
        ∃ v', interpolate values kv.2 = .ok v' := by
  intro kvs
  induction kvs with
  | nil => intro kvs' h kv hkv; cases hkv
  | cons a as ih =>
    intro kvs' h kv hkv
    obtain ⟨k, v⟩ := a
    simp only [interpolateEntries] at h
    cases hk : pyFormat k values with
    | error e => rw [hk] at h; simp at h
    | ok k' =>
      rw [hk] at h
      cases hv : interpolate values v with
      | error e => rw [hv] at h; simp at h
      | ok v' =>
        rw [hv] at h
        cases hl : interpolateEntries values as with
        | error e => rw [hl] at h; simp at h
        | ok as' =>
          rcases List.mem_cons.mp hkv with rfl | hkv'
          · exact ⟨⟨k', hk⟩, ⟨v', hv⟩⟩
          · exact ih as' hl kv hkv'

/-- A failed list interpolation pins the failure on some element. -/
theorem interpolateList_error (values : List (String × String)) :
    ∀ (xs : List JSON) (e : InterpError), interpolateList values xs = .error e →
      ∃ x ∈ xs, interpolate values x = .error e := by
  intro xs
  induction xs with
  | nil => intro e h; simp [interpolateList] at h
  | cons a as ih =>
    intro e h
    simp only [interpolateList] at h
    cases ha : interpolate values a with
    | error e' =>
      rw [ha] at h
      simp at h
      exact ⟨a, List.mem_cons_self a as, by rw [ha, h]⟩
    | ok y =>
      rw [ha] at h
      cases hl : interpolateList values as with
      | error e'' =>
        rw [hl] at h
        simp at h
        obtain ⟨x, hx, hex⟩ := ih e'' hl
        exact ⟨x, List.mem_cons_of_mem a hx, by rw [hex, h]⟩
      | ok ys => rw [hl] at h; simp at h

/-- A failed entries interpolation pins the failure on some key or value. -/
theorem interpolateEntries_error (values : List (String × String)) :
    ∀ (kvs : List (String × JSON)) (e : InterpError),
      interpolateEntries values kvs = .error e →
      ∃ kv ∈ kvs, pyFormat kv.1 values = .error e ∨
        interpolate values kv.2 = .error e := by
  intro kvs
  induction kvs with
  | nil => intro e h; simp [interpolateEntries] at h
  | cons a as ih =>
    intro e h
    obtain ⟨k, v⟩ := a
    simp only [interpolateEntries] at h
    cases hk : pyFormat k values with
    | error e' =>
      rw [hk] at h
      simp at h
      exact ⟨(k, v), List.mem_cons_self _ as, Or.inl (by rw [hk, h])⟩
    | ok k' =>
      rw [hk] at h
      cases hv : interpolate values v with
      | error e' =>
        rw [hv] at h
        simp at h
        exact ⟨(k, v), List.mem_cons_self _ as, Or.inr (by rw [hv, h])⟩
      | ok v' =>
        rw [hv] at h
        cases hl : interpolateEntries values as with
        | error e'' =>
          rw [hl] at h
          simp at h
          obtain ⟨kv, hkv, hor⟩ := ih e'' hl
          refine ⟨kv, List.mem_cons_of_mem _ hkv, ?_⟩
          rcases hor with h1 | h1
          · exact Or.inl (by rw [h1, h])
          · exact Or.inr (by rw [h1, h])
        | ok kvs'' => rw [hl] at h; simp at h

/-- A tree that interpolates successfully formats every string leaf and
mapping key successfully. -/
theorem interpolate_ok_leaves (values : List (String × String)) :
    ∀ t t', interpolate values t = .ok t' →
      ∀ s ∈ stringLeaves t, ∃ r, pyFormat s values = .ok r := by
  intro t
  induction t using jsonIndOn with
  | hstr s =>
    intro t' h s' hs'
    simp only [stringLeaves, List.mem_singleton] at hs'
    subst hs'
    simp only [interpolate] at h
    cases hf : pyFormat s' values with
    | ok r => exact ⟨r, rfl⟩
    | error e => rw [hf] at h; simp [Except.map] at h
  | hnum n => intro t' h s hs; simp [stringLeaves] at hs
  | hbool b => intro t' h s hs; simp [stringLeaves] at hs
  | hnull => intro t' h s hs; simp [stringLeaves] at hs
  | harr xs ih =>
    intro t' h s hs
    simp only [interpolate] at h
    cases hl : interpolateList values xs with
    | error e => rw [hl] at h; simp at h
    | ok ys =>
      simp only [stringLeaves] at hs
      obtain ⟨x, hx, hsx⟩ := (stringLeavesList_mem s xs).mp hs
      obtain ⟨y, hy⟩ := interpolateList_ok values xs ys hl x hx
      exact ih x hx y hy s hsx
  | hobj kvs ih =>
    intro t' h s hs
    simp only [interpolate] at h
    cases hl : interpolateEntries values kvs with
    | error e => rw [hl] at h; simp at h
    | ok kvs' =>
      simp only [stringLeaves] at hs
      obtain ⟨kv, hkv, hcase⟩ := (stringLeavesEntries_mem s kvs).mp hs
      obtain ⟨⟨r, hr⟩, v', hv'⟩ := interpolateEntries_ok values kvs kvs' hl kv hkv
      rcases hcase with rfl | hsv
      · exact ⟨r, hr⟩
      · exact ih kv hkv v' hv' s hsv

/-- A failed interpolation is the failure of formatting some string leaf
or mapping key. -/
theorem interpolate_error_leaves (values : List (String × String)) :
    ∀ t e, interpolate values t = .error e →
      ∃ s ∈ stringLeaves t, pyFormat s values = .error e := by
  intro t
  induction t using jsonIndOn with
  | hstr s =>
    intro e h
    simp only [interpolate] at h
    cases hf : pyFormat s values with
    | ok r => rw [hf] at h; simp [Except.map] at h
    | error e' =>
      rw [hf] at h
      simp [Except.map] at h
      subst h
      exact ⟨s, by simp [stringLeaves], hf⟩
  | hnum n => intro e h; simp [interpolate] at h
  | hbool b => intro e h; simp [interpolate] at h
  | hnull => intro e h; simp [interpolate] at h
  | harr xs ih =>
    intro e h
    simp only [interpolate] at h
    cases hl : interpolateList values xs with
    | ok ys => rw [hl] at h; simp at h
    | error e' =>
      rw [hl] at h
      simp at h
      subst h
      obtain ⟨x, hx, hex⟩ := interpolateList_error values xs e' hl
      obtain ⟨s, hs, hfs⟩ := ih x hx e' hex
      exact ⟨s, by
        simp only [stringLeaves]
        exact (stringLeavesList_mem s xs).mpr ⟨x, hx, hs⟩, hfs⟩
  | hobj kvs ih =>
    intro e h
    simp only [interpolate] at h
    cases hl : interpolateEntries values kvs with
    | ok kvs' => rw [hl] at h; simp at h
    | error e' =>
      rw [hl] at h
      simp at h
      subst h
      obtain ⟨kv, hkv, hor⟩ := interpolateEntries_error values kvs e' hl
      rcases hor with h1 | h1
      · exact ⟨kv.1, by
          simp only [stringLeaves]
          exact (stringLeavesEntries_mem kv.1 kvs).mpr ⟨kv, hkv, Or.inl rfl⟩, h1⟩
      · obtain ⟨s, hs, hfs⟩ := ih kv hkv e' h1
        exact ⟨s, by
          simp only [stringLeaves]
          exact (stringLeavesEntries_mem s kvs).mpr ⟨kv, hkv, Or.inr hs⟩, hfs⟩

/-- Pointwise shape preservation lifts to `interpolateList`. -/
theorem interpolateList_shape (values : List (String × String)) :
    ∀ (xs ys : List JSON),
      (∀ x ∈ xs, ∀ y, interpolate values x = .ok y → shape y = shape x) →
      interpolateList values xs = .ok ys → shapeList ys = shapeList xs := by
  intro xs
  induction xs with
  | nil =>
    intro ys hpt h
    simp only [interpolateList] at h
    simp at h
    subst h
    rfl
  | cons a as ih =>
    intro ys hpt h
    simp only [interpolateList] at h
    cases ha : interpolate values a with
    | error e => rw [ha] at h; simp at h
    | ok y =>
      rw [ha] at h
      cases hl : interpolateList values as with
      | error e => rw [hl] at h; simp at h
      | ok ys' =>
        rw [hl] at h
        simp at h
        subst h
        simp only [shapeList]
        rw [hpt a (List.mem_cons_self a as) y ha,
          ih ys' (fun x hx => hpt x (List.mem_cons_of_mem a hx)) hl]

/-- The method `_interpolate` preserves the structural shape of the tree. -/
theorem interpolate_shape (values : List (String × String)) :
    ∀ t t', interpolate values t = .ok t' → shape t' = shape t := by
  intro t
  induction t using jsonIndOn with
  | hstr s =>
    intro t' h
    simp only [interpolate] at h
    cases hf : pyFormat s values with
    | error e => rw [hf] at h; simp [Except.map] at h
    | ok r =>
      rw [hf] at h
      simp [Except.map] at h
      subst h
      rfl
  | hnum n =>
    intro t' h
    simp only [interpolate] at h
    simp at h
    subst h
    rfl
  | hbool b =>
    intro t' h
    simp only [interpolate] at h
    simp at h
    subst h
    rfl
  | hnull =>
    intro t' h
    simp only [interpolate] at h
    simp at h
    subst h
    rfl
  | harr xs ih =>
    intro t' h
    simp only [interpolate] at h
    cases hl : interpolateList values xs with
    | error e => rw [hl] at h; simp at h
    | ok ys =>
      rw [hl] at h
      simp at h
      subst h
      simp only [shape]
      rw [interpolateList_shape values xs ys ih hl]
  | hobj kvs ih =>
    intro t' h
    simp only [interpolate] at h
    cases hl : interpolateEntries values kvs with
    | error e => rw [hl] at h; simp at h
    | ok kvs' =>
      rw [hl] at h
      simp at h
      subst h
      rfl

/-- Predicate `distinctKeys` is `Nodup`. -/
theorem distinctKeys_nodup : ∀ l : List String, distinctKeys l = true ↔ l.Nodup := by
  intro l
  induction l with
  | nil => simp [distinctKeys]
  | cons k ks ih =>
    simp [distinctKeys, ih, List.nodup_cons, List.contains_iff_exists_mem_beq]

/-- Folding `dictInsert` over entries with globally distinct keys appends
them in order. -/
theorem dictFoldAux (kvs : List (String × JSON)) :
    ∀ acc : List (String × JSON),
      (acc.map Prod.fst ++ kvs.map Prod.fst).Nodup →
      List.foldl (fun m kv => dictInsert m kv.1 kv.2) acc kvs = acc ++ kvs := by
  induction kvs with
  | nil => intro acc h; simp
  | cons a as ih =>
    intro acc h
    obtain ⟨k, v⟩ := a
    simp only [List.foldl_cons]
    have hnot : acc.any (fun kv => kv.1 == k) = false := by
      rw [Bool.eq_false_iff]
      intro hany
      rw [List.any_eq_true] at hany
      obtain ⟨kv, hkv, hbeq⟩ := hany
      rw [beq_iff_eq] at hbeq
      have hk1 : k ∈ acc.map Prod.fst := by
        rw [← hbeq]
        exact List.mem_map_of_mem Prod.fst hkv
      have hdisj := (List.nodup_append.mp h).2.2
      exact hdisj hk1 (by simp)
    have hins : dictInsert acc k v = acc ++ [(k, v)] := by
      simp [dictInsert, hnot]
    rw [hins, ih (acc ++ [(k, v)]) (by simpa [List.append_assoc] using h)]
    simp

/-- The dict comprehension rebuilds an entry list with distinct keys
verbatim. -/
theorem dictFromList_distinct (kvs : List (String × JSON))
    (h : distinctKeys (kvs.map Prod.fst) = true) : dictFromList kvs = kvs := by
  have := dictFoldAux kvs [] (by simpa using (distinctKeys_nodup _).mp h)
  simpa [dictFromList] using this

/-- Pointwise full-shape preservation lifts to `interpolateList`. -/
theorem interpolateList_shapeFull (values : List (String × String)) :
    ∀ (xs ys : List JSON),
      (∀ x ∈ xs, ∀ y, interpolate values x = .ok y → shapeFull y = shapeFull x) →
      interpolateList values xs = .ok ys → shapeFullList ys = shapeFullList xs := by
  intro xs
  induction xs with
  | nil =>
    intro ys hpt h
    simp only [interpolateList] at h
    simp at h
    subst h
    rfl
  | cons a as ih =>
    intro ys hpt h
    simp only [interpolateList] at h
    cases ha : interpolate values a with
    | error e => rw [ha] at h; simp at h
    | ok y =>
      rw [ha] at h
      cases hl : interpolateList values as with
      | error e => rw [hl] at h; simp at h
      | ok ys' =>
        rw [hl] at h
        simp at h
        subst h
        simp only [shapeFullList]
        rw [hpt a (List.mem_cons_self a as) y ha,
          ih ys' (fun x hx => hpt x (List.mem_cons_of_mem a hx)) hl]

/-- Pointwise full-shape preservation of entry values lifts to
`interpolateEntries` — the rewritten keys are erased by
`shapeFullEntries`, the values' shapes survive entry by entry. -/
theorem interpolateEntries_shapeFull (values : List (String × String)) :
    ∀ (kvs kvs' : List (String × JSON)),
      (∀ k v, (k, v) ∈ kvs → ∀ v', interpolate values v = .ok v' →
        shapeFull v' = shapeFull v) →
      interpolateEntries values kvs = .ok kvs' →
      shapeFullEntries kvs' = shapeFullEntries kvs := by
  intro kvs
  induction kvs with
  | nil =>
    intro kvs' hpt h
    simp only [interpolateEntries] at h
    simp at h
    subst h
    rfl
  | cons a as ih =>
    intro kvs' hpt h
    obtain ⟨k, v⟩ := a
    simp only [interpolateEntries] at h
    cases hk : pyFormat k values with
    | error e => rw [hk] at h; simp at h
    | ok k' =>
      rw [hk] at h
      cases hv : interpolate values v with
      | error e => rw [hv] at h; simp at h
      | ok v' =>
        rw [hv] at h
        cases hl : interpolateEntries values as with
        | error e => rw [hl] at h; simp at h
        | ok as' =>
          rw [hl] at h
          simp at h
          subst h
          simp only [shapeFullEntries]
          rw [hpt k v (List.mem_cons_self _ _) v' hv,
            ih as' (fun k2 v2 hkv => hpt k2 v2 (List.mem_cons_of_mem _ hkv)) hl]

/-- A successful entries interpolation maps each key to its formatted
text, in order. -/
theorem interpolateEntries_keys (values : List (String × String)) :
    ∀ (kvs kvs' : List (String × JSON)), interpolateEntries values kvs = .ok kvs' →
      kvs'.map Prod.fst = kvs.map (fun kv => formattedKey values kv.1) := by
  intro kvs
  induction kvs with
  | nil =>
    intro kvs' h
    simp only [interpolateEntries] at h
    simp at h
    subst h
    rfl
  | cons a as ih =>
    intro kvs' h
    obtain ⟨k, v⟩ := a
    simp only [interpolateEntries] at h
    cases hk : pyFormat k values with
    | error e => rw [hk] at h; simp at h
    | ok k' =>
      rw [hk] at h
      cases hv : interpolate values v with
      | error e => rw [hv] at h; simp at h
      | ok v' =>
        rw [hv] at h
        cases hl : interpolateEntries values as with
        | error e => rw [hl] at h; simp at h
        | ok as' =>
          rw [hl] at h
          simp at h
          subst h
          simp only [List.map_cons, ih as' hl]
          congr 1
          simp [formattedKey, hk]

/-- Predicate `interpKeysDistinctList` restricts to each element. -/
theorem interpKeysDistinctList_mem (values : List (String × String)) :
    ∀ xs : List JSON, interpKeysDistinctList values xs = true →
      ∀ x ∈ xs, interpKeysDistinct values x = true := by
  intro xs
  induction xs with
  | nil => intro h x hx; cases hx
  | cons a as ih =>
    intro h x hx
    simp only [interpKeysDistinctList, Bool.and_eq_true] at h
    rcases List.mem_cons.mp hx with rfl | hx'
    · exact h.1
    · exact ih h.2 x hx'

/-- Predicate `interpKeysDistinctEntries` restricts to each entry's value. -/
theorem interpKeysDistinctEntries_mem (values : List (String × String)) :
    ∀ kvs : List (String × JSON), interpKeysDistinctEntries values kvs = true →
      ∀ kv ∈ kvs, interpKeysDistinct values kv.2 = true := by
  intro kvs
  induction kvs with
  | nil => intro h kv hkv; cases hkv
  | cons a as ih =>
    intro h kv hkv
    obtain ⟨k, v⟩ := a
    simp only [interpKeysDistinctEntries, Bool.and_eq_true] at h
    rcases List.mem_cons.mp hkv with rfl | hkv'
    · exact h.1
    · exact ih h.2 kv hkv'

/-- The method `_interpolate` preserves the full key-erased shape — entry
lists under mappings included — whenever the interpolated mapping keys
stay pairwise distinct, so that the dict rebuild merges nothing. -/
theorem interpolate_shapeFull (values : List (String × String)) :
    ∀ t t', interpolate values t = .ok t' → interpKeysDistinct values t = true →
      shapeFull t' = shapeFull t := by
  intro t
  induction t using jsonIndOn with
  | hstr s =>
    intro t' h _
    simp only [interpolate] at h
    cases hf : pyFormat s values with
    | error e => rw [hf] at h; simp [Except.map] at h
    | ok r =>
      rw [hf] at h
      simp [Except.map] at h
      subst h
      rfl
  | hnum n =>
    intro t' h _
    simp only [interpolate] at h
    simp at h
    subst h
    rfl
  | hbool b =>
    intro t' h _
    simp only [interpolate] at h
    simp at h
    subst h
    rfl
  | hnull =>
    intro t' h _
    simp only [interpolate] at h
    simp at h
    subst h
    rfl
  | harr xs ih =>
    intro t' h hk
    simp only [interpolate] at h
    simp only [interpKeysDistinct] at hk
    cases hl : interpolateList values xs with
    | error e => rw [hl] at h; simp at h
    | ok ys =>
      rw [hl] at h
      simp at h
      subst h
      simp only [shapeFull]
      rw [interpolateList_shapeFull values xs ys
        (fun x hx y hy =>
          ih x hx y hy (interpKeysDistinctList_mem values xs hk x hx)) hl]
  | hobj kvs ih =>
    intro t' h hk
    simp only [interpolate] at h
    simp only [interpKeysDistinct, Bool.and_eq_true] at hk
    cases hl : interpolateEntries values kvs with
    | error e => rw [hl] at h; simp at h
    | ok kvs' =>
      rw [hl] at h
      simp at h
      subst h
      have hkeys : distinctKeys (kvs'.map Prod.fst) = true := by
        rw [interpolateEntries_keys values kvs kvs' hl]
        exact hk.1
      rw [dictFromList_distinct kvs' hkeys]
      simp only [shapeFull]
      rw [interpolateEntries_shapeFull values kvs kvs'
        (fun k v hkv v' hv' =>
          ih (k, v) hkv v' hv'
            (interpKeysDistinctEntries_mem values kvs hk.2 (k, v) hkv)) hl]

/-- The method `_inject_file_contents` preserves the keyed structural
shape: mapping keys and entry lists, sequence lengths and order, and
non-string scalars all survive; only string leaves are rewritten. -/
theorem inject_shapeKeyed (bound : String) (fs : FS) :
    ∀ t, shapeKeyed (injectFileContents bound fs t) = shapeKeyed t := by
  intro t
  induction t using jsonIndOn with
  | hstr s =>
    cases hp : FileReference.parse s bound with
    | none => simp [injectFileContents, hp]
    | some ref =>
      cases hc : FileReference.contents ref fs with
      | ok c => simp [injectFileContents, hp, hc, shapeKeyed]
      | error e => simp [injectFileContents, hp, hc, shapeKeyed]
  | hnum n => rfl
  | hbool b => rfl
  | hnull => rfl
  | harr xs ih =>
    simp only [injectFileContents, shapeKeyed]
    congr 1
    induction xs with
    | nil => rfl
    | cons a as ihl =>
      simp only [injectList, shapeKeyedList]
      rw [ih a (List.mem_cons_self a as),
        ihl (fun y hy => ih y (List.mem_cons_of_mem a hy))]
  | hobj kvs ih =>
    simp only [injectFileContents, shapeKeyed]
    congr 1
    induction kvs with
    | nil => rfl
    | cons a as ihl =>
      obtain ⟨k, v⟩ := a
      simp only [injectEntries, shapeKeyedEntries]
      have h1 : shapeKeyed (injectFileContents bound fs v) = shapeKeyed v :=
        ih (k, v) (List.mem_cons_self _ _)
      rw [h1, ihl (fun kv hkv => ih kv (List.mem_cons_of_mem _ hkv))]

/-- C8.  Both transformation stages preserve structural shape.  File
injection preserves the keyed shape outright: sequences map to sequences
of the same length in the same order, mappings keep their keys and entry
lists, non-string scalars are unchanged, and only string leaves are
rewritten.  Interpolation — which additionally rewrites mapping keys —
preserves the full key-erased shape whenever the interpolated keys stay
pairwise distinct (the dict comprehension's last-write-wins merge on a
key collision being the one documented exception), and the coarse shape
(sequence lengths and order, scalar values, mapping-ness)
unconditionally. -/
theorem transformations_preserve_shape (values : List (String × String))
    (bound : String) (fs : FS) (t t' : JSON) :
    (interpolate values t = .ok t' → shape t' = shape t) ∧
    (interpolate values t = .ok t' → interpKeysDistinct values t = true →
      shapeFull t' = shapeFull t) ∧
    shapeKeyed (injectFileContents bound fs t) = shapeKeyed t :=
  ⟨fun h => interpolate_shape values t t' h,
   fun h hk => interpolate_shapeFull values t t' h hk,
   inject_shapeKeyed bound fs t⟩

/-- C8, witness on a mapping-rooted tree holding a nested sequence with
a placeholder leaf and a number, and a null entry, with an injection
environment holding one readable file. -/
theorem transformations_preserve_shape_witness :
    shape (.obj [("a", .arr [.str "xv", .num 3]), ("b", .null)]) =
      shape (.obj [("a", .arr [.str "x\x7bk\x7d", .num 3]), ("b", .null)]) ∧
    shapeFull (.obj [("a", .arr [.str "xv", .num 3]), ("b", .null)]) =
      shapeFull (.obj [("a", .arr [.str "x\x7bk\x7d", .num 3]), ("b", .null)]) ∧
    shapeKeyed (injectFileContents "/opt" [("/opt/f.txt", some "X")]
        (.obj [("a", .arr [.str "x\x7bk\x7d", .num 3]), ("b", .null)])) =
      shapeKeyed (.obj [("a", .arr [.str "x\x7bk\x7d", .num 3]), ("b", .null)]) :=
  ⟨(transformations_preserve_shape [("k", "v")] "/opt" [("/opt/f.txt", some "X")]
      (.obj [("a", .arr [.str "x\x7bk\x7d", .num 3]), ("b", .null)])
      (.obj [("a", .arr [.str "xv", .num 3]), ("b", .null)])).1 (by rfl),
   (transformations_preserve_shape [("k", "v")] "/opt" [("/opt/f.txt", some "X")]
      (.obj [("a", .arr [.str "x\x7bk\x7d", .num 3]), ("b", .null)])
      (.obj [("a", .arr [.str "xv", .num 3]), ("b", .null)])).2.1 (by rfl) (by decide),
   (transformations_preserve_shape [("k", "v")] "/opt" [("/opt/f.txt", some "X")]
      (.obj [("a", .arr [.str "x\x7bk\x7d", .num 3]), ("b", .null)])
      (.obj [("a", .arr [.str "xv", .num 3]), ("b", .null)])).2.2⟩

/-- C6, counterexample.  A tree containing the missing-key placeholder
leaf `\x7bmissing\x7d` but whose first leaf is a stray `\x7d`: the whole
interpolation fails with the `ValueError`-class single-brace error, not a
`KeyError`-class one. -/
theorem interpolate_missing_key_not_always_key_error :
    "\x7bmissing\x7d" ∈ stringLeaves (.arr [.str "\x7d", .str "\x7bmissing\x7d"]) ∧
    pyFormat "\x7bmissing\x7d" [] = .error (.keyError "missing") ∧
    interpolate [] (.arr [.str "\x7d", .str "\x7bmissing\x7d"]) =
      .error .singleRBrace ∧
    isKeyError .singleRBrace = false := by
  refine ⟨by decide, by decide, ?_, by decide⟩
  rfl

/-- C6, amended.  A tree containing a string leaf (or mapping key) whose
formatting fails with a missing key cannot interpolate: the whole
operation fails (no silent blanks or partial substitution), and the error
is `KeyError`-class whenever every leaf either formats or fails only with
missing keys.  That side condition excludes both leaves with malformed
braces (which surface as the `ValueError`-class failure instead, as the
counterexample shows) and leaves whose fields carry conversion,
format-spec, attribute or index suffixes — on those the embedding
abstains (`unsupportedField`) rather than modelling CPython's format
mini-language, so the guarantee is only asserted on the plain-named-field
fragment, where the embedding is exact. -/
theorem interpolate_missing_key_fails (values : List (String × String)) (t : JSON)
    (s k : String) (hs : s ∈ stringLeaves t)
    (hf : pyFormat s values = .error (.keyError k)) :
    (∃ e, interpolate values t = .error e) ∧
    ((stringLeaves t).all (formatErrIsKeyOnly values) = true →
      ∃ k', interpolate values t = .error (.keyError k')) := by
  have herr : ∃ e, interpolate values t = .error e := by
    cases hi : interpolate values t with
    | ok t' =>
      obtain ⟨r, hr⟩ := interpolate_ok_leaves values t t' hi s hs
      rw [hf] at hr
      exact Except.noConfusion hr
    | error e => exact ⟨e, rfl⟩
  refine ⟨herr, fun hall => ?_⟩
  obtain ⟨e, he⟩ := herr
  obtain ⟨s', hs', hf'⟩ := interpolate_error_leaves values t e he
  have hkey := List.all_eq_true.mp hall s' hs'
  simp only [formatErrIsKeyOnly, hf'] at hkey
  cases e with
  | keyError k' => exact ⟨k', he⟩
  | indexError => simp [isKeyError] at hkey
  | unmatchedLBrace => simp [isKeyError] at hkey
  | singleRBrace => simp [isKeyError] at hkey
  | badFieldName => simp [isKeyError] at hkey
  | unsupportedField => simp [isKeyError] at hkey

/-- C6, witness: a mapping whose single value holds a placeholder for an
absent key fails with that `KeyError`. -/
theorem interpolate_missing_key_fails_witness :
    ∃ k', interpolate [("x", "1")] (.obj [("a", .str "\x7bmissing\x7d")]) =
      .error (.keyError k') :=
  (interpolate_missing_key_fails [("x", "1")]
    (.obj [("a", .str "\x7bmissing\x7d")]) "\x7bmissing\x7d" "missing"
    (by decide) (by decide)).2 (by decide)

/-- Pointwise identity lifts to `interpolateList`. -/
theorem interpolateList_id (values : List (String × String)) :
    ∀ xs : List JSON, (∀ x ∈ xs, interpolate values x = .ok x) →
      interpolateList values xs = .ok xs := by
  intro xs
  induction xs with
  | nil => intro h; rfl
  | cons a as ih =>
    intro h
    simp only [interpolateList]
    rw [h a (List.mem_cons_self a as),
      ih (fun x hx => h x (List.mem_cons_of_mem a hx))]

/-- Pointwise identity lifts to `interpolateEntries`. -/
theorem interpolateEntries_id (values : List (String × String)) :
    ∀ kvs : List (String × JSON),
      (∀ kv ∈ kvs, pyFormat kv.1 values = .ok kv.1 ∧
        interpolate values kv.2 = .ok kv.2) →
      interpolateEntries values kvs = .ok kvs := by
  intro kvs
  induction kvs with
  | nil => intro h; rfl
  | cons a as ih =>
    intro h
    obtain ⟨k, v⟩ := a
    simp only [interpolateEntries]
    rw [(h (k, v) (List.mem_cons_self _ as)).1,
      (h (k, v) (List.mem_cons_self _ as)).2,
      ih (fun kv hkv => h kv (List.mem_cons_of_mem _ hkv))]

/-- A leaf-wise `all` restricts to an element of a list of trees. -/
theorem stringLeavesList_all {p : String → Bool} {xs : List JSON} {x : JSON}
    (h : (stringLeavesList xs).all p = true) (hx : x ∈ xs) :
    (stringLeaves x).all p = true := by
  rw [List.all_eq_true] at h ⊢
  intro s hs
  exact h s ((stringLeavesList_mem s xs).mpr ⟨x, hx, hs⟩)

/-- A leaf-wise `all` over dict entries restricts to the key and the
value's leaves of any entry. -/
theorem stringLeavesEntries_all {p : String → Bool} {kvs : List (String × JSON)}
    {kv : String × JSON} (h : (stringLeavesEntries kvs).all p = true)
    (hkv : kv ∈ kvs) :
    p kv.1 = true ∧ (stringLeaves kv.2).all p = true := by
  rw [List.all_eq_true] at h
  constructor
  · exact h kv.1 ((stringLeavesEntries_mem kv.1 kvs).mpr ⟨kv, hkv, Or.inl rfl⟩)
  · rw [List.all_eq_true]
    intro s hs
    exact h s ((stringLeavesEntries_mem s kvs).mpr ⟨kv, hkv, Or.inr hs⟩)

/-- Predicate `uniqueKeysList` restricts to each element. -/
theorem uniqueKeysList_mem : ∀ xs : List JSON, uniqueKeysList xs = true →
    ∀ x ∈ xs, uniqueKeysTree x = true := by
  intro xs
  induction xs with
  | nil => intro h x hx; cases hx
  | cons a as ih =>
    intro h x hx
    simp only [uniqueKeysList, Bool.and_eq_true] at h
    rcases List.mem_cons.mp hx with rfl | hx'
    · exact h.1
    · exact ih h.2 x hx'

/-- Predicate `uniqueKeysEntries` restricts to each entry's value. -/
theorem uniqueKeysEntries_mem : ∀ kvs : List (String × JSON),
    uniqueKeysEntries kvs = true → ∀ kv ∈ kvs, uniqueKeysTree kv.2 = true := by
  intro kvs
  induction kvs with
  | nil => intro h kv hkv; cases hkv
  | cons a as ih =>
    intro h kv hkv
    obtain ⟨k, v⟩ := a
    simp only [uniqueKeysEntries, Bool.and_eq_true] at h
    rcases List.mem_cons.mp hkv with rfl | hkv'
    · exact h.1
    · exact ih h.2 kv hkv'

/-- Interpolation is the identity on trees whose string leaves and
mapping keys are brace-free, given the JSON invariant of distinct
mapping keys. -/
theorem interpolate_id_of_brace_free (values : List (String × String)) :
    ∀ t, (stringLeaves t).all strBraceFree = true → uniqueKeysTree t = true →
      interpolate values t = .ok t := by
  intro t
  induction t using jsonIndOn with
  | hstr s =>
    intro hb hu
    simp only [stringLeaves, List.all_cons, List.all_nil, Bool.and_true] at hb
    simp only [interpolate, pyFormat_brace_free values s hb, Except.map]
  | hnum n => intro _ _; rfl
  | hbool b => intro _ _; rfl
  | hnull => intro _ _; rfl
  | harr xs ih =>
    intro hb hu
    simp only [stringLeaves] at hb
    simp only [uniqueKeysTree] at hu
    have hlist : interpolateList values xs = .ok xs :=
      interpolateList_id values xs (fun x hx =>
        ih x hx (stringLeavesList_all hb hx) (uniqueKeysList_mem xs hu x hx))
    simp only [interpolate, hlist]
  | hobj kvs ih =>
    intro hb hu
    simp only [stringLeaves] at hb
    simp only [uniqueKeysTree, Bool.and_eq_true] at hu
    have hentries : interpolateEntries values kvs = .ok kvs :=
      interpolateEntries_id values kvs (fun kv hkv =>
        ⟨pyFormat_brace_free values kv.1 (stringLeavesEntries_all hb hkv).1,
         ih kv hkv (stringLeavesEntries_all hb hkv).2
           (uniqueKeysEntries_mem kvs hu.2 kv hkv)⟩)
    simp only [interpolate, hentries]
    rw [dictFromList_distinct kvs hu.1]

/-- C9, counterexample.  The leaf `\x7b\x7b` contains no placeholder —
it is the brace escape — yet interpolation rewrites it to the single
brace `\x7b`, so interpolation is not the identity on it. -/
theorem interpolate_identity_counterexample :
    interpolate [] (.str "\x7b\x7b") = .ok (.str "\x7b") ∧
    (JSON.str "\x7b" = .str "\x7b\x7b" → False) := by
  constructor
  · rfl
  · intro h
    injection h with h
    exact absurd h (by decide)

/-- C9, amended.  On trees all of whose string leaves and mapping keys
are free of brace characters (no placeholders, and also no brace escapes
or stray braces) and whose mappings have distinct keys (the JSON
invariant), interpolation is the identity for every value mapping. -/
theorem interpolate_identity_brace_free (values : List (String × String))
    (t : JSON) (hb : (stringLeaves t).all strBraceFree = true)
    (hu : uniqueKeysTree t = true) :
    interpolate values t = .ok t :=
  interpolate_id_of_brace_free values t hb hu

/-- C9, witness on a nested placeholder-free tree. -/
theorem interpolate_identity_brace_free_witness :
    interpolate [("x", "y")]
        (.obj [("a", .arr [.str "plain", .num 1]), ("b", .null)]) =
      .ok (.obj [("a", .arr [.str "plain", .num 1]), ("b", .null)]) :=
  interpolate_identity_brace_free [("x", "y")]
    (.obj [("a", .arr [.str "plain", .num 1]), ("b", .null)])
    (by decide) (by decide)

/-- C2.  A string `ssl_verify` never yields a certificate-file path for
the request: the branch evaluates `tempfile.NamedTemporaryFile(...)
.write(verify)` with the local `verify` still unassigned, raising
`UnboundLocalError` and failing the whole command, for every certificate
string, uri and response — the spec's write-then-pass-the-path contract
is unimplementable by this code. -/
theorem ssl_verify_string_raises (s u : String) (resp : Response) :
    computeVerify (.str s) = .error .nameError ∧
    cmd [("uri", .str u), ("ssl_verify", .str s)] resp = .error .nameError :=
  ⟨rfl, rfl⟩

/-- C3, counterexample.  With both a `json` body and a non-empty
`form_data` supplied, the executed request carries the form-encoded body
(the `requests` library ignores `json=` whenever `data=` is truthy), not
the JSON body. -/
theorem json_and_form_counterexample :
    (buildRequest [("uri", .str "http://h/post"), ("json", .obj [("a", .num 1)]),
        ("form_data", .obj [("b", .num 2)])]).map PreparedRequest.body =
      .ok (.formBody [("b", "2")]) ∧
    (Body.formBody [("b", "2")] = .jsonBody (.obj [("a", .num 1)]) → False) :=
  ⟨rfl, fun h => Body.noConfusion h⟩

/-- C3, amended.  Whenever `form_data` is present as a non-empty mapping,
the executed request's body is the form-encoded body with each field
JSON-encoded, regardless of any `json` body supplied alongside; the JSON
body is sent only when `form_data` is absent, empty or otherwise falsy. -/
theorem form_data_wins_over_json (data : List (String × JSON))
    (kvs : List (String × JSON)) (req : PreparedRequest)
    (hfd : data.lookup "form_data" = some (.obj kvs)) (hne : kvs ≠ [])
    (hok : buildRequest data = .ok req) :
    req.body = .formBody (kvs.map (fun kv => (kv.1, pyJsonDumps kv.2))) := by
  have htruthy : pyTruthy (.obj kvs) = true := by
    cases kvs with
    | nil => exact absurd rfl hne
    | cons a as => rfl
  have hfe : (kvs.map (fun kv => (kv.1, pyJsonDumps kv.2))).isEmpty = false := by
    cases kvs with
    | nil => exact absurd rfl hne
    | cons a as => rfl
  simp only [buildRequest] at hok
  cases hu : data.lookup "uri" with
  | none => rw [hu] at hok; exact Except.noConfusion hok
  | some uri =>
    rw [hu] at hok
    cases hv : computeVerify ((data.lookup "ssl_verify").getD (.bool true)) with
    | error e => rw [hv] at hok; exact Except.noConfusion hok
    | ok verify =>
      rw [hv, hfd] at hok
      simp only [htruthy, if_true] at hok
      injection hok with hok
      subst hok
      simp only [prepareBody, hfe, Bool.false_eq_true, if_false]

/-- C3, witness: the request built from a descriptor carrying both kinds
of body has the form-encoded body. -/
theorem form_data_wins_over_json_witness :
    PreparedRequest.body
      ⟨.str "POST", .str "http://h/post", .obj [], .flag true,
        .formBody [("b", "2")]⟩ = .formBody [("b", "2")] :=
  form_data_wins_over_json
    [("uri", .str "http://h/post"), ("method", .str "POST"),
      ("json", .obj [("a", .num 1)]), ("form_data", .obj [("b", .num 2)])]
    [("b", .num 2)]
    ⟨.str "POST", .str "http://h/post", .obj [], .flag true,
      .formBody [("b", "2")]⟩
    rfl (List.cons_ne_nil _ _) rfl

/-- C7.  With no `ok_responses` override, exactly the statuses 200, 201,
202 and 204 are accepted; every other status — 404 in particular — fails
with the invocation error carrying the status code; overriding with
`ok_responses = [404]` makes the same 404 response succeed and return
the `(status, body)` record. -/
theorem ok_responses_gate (u text : String) (status : Int) :
    (status ∈ [(200 : Int), 201, 202, 204] →
      cmd [("uri", .str u)] ⟨status, text⟩ = .ok (status, text)) ∧
    (status ∉ [(200 : Int), 201, 202, 204] →
      cmd [("uri", .str u)] ⟨status, text⟩ = .error (.invocation status)) ∧
    cmd [("uri", .str u)] ⟨404, text⟩ = .error (.invocation 404) ∧
    cmd [("uri", .str u), ("ok_responses", .arr [.num 404])] ⟨404, text⟩ =
      .ok (404, text) := by
  refine ⟨?_, ?_, rfl, rfl⟩
  · intro h
    simp only [List.mem_cons, List.mem_singleton, List.not_mem_nil, or_false] at h
    rcases h with rfl | rfl | rfl | rfl <;> rfl
  · intro h
    simp only [List.mem_cons, List.mem_singleton, List.not_mem_nil, or_false,
      not_or] at h
    obtain ⟨h1, h2, h3, h4⟩ := h
    have hany : ([JSON.num 200, .num 201, .num 202, .num 204].any
        (fun j => pyEqNum j status)) = false := by
      simp only [List.any_cons, List.any_nil, Bool.or_false, pyEqNum,
        Bool.or_eq_false_iff, beq_eq_false_iff_ne]
      exact ⟨fun hh => h1 hh.symm, fun hh => h2 hh.symm,
        fun hh => h3 hh.symm, fun hh => h4 hh.symm⟩
    have hbr : buildRequest [("uri", .str u)] =
        .ok ⟨.str "GET", .str u, .obj [], .flag true, .empty⟩ := rfl
    have hok : cmdOkResponses [("uri", .str u)] =
        .arr [.num 200, .num 201, .num 202, .num 204] := rfl
    simp only [cmd, hbr, hok, hany, Bool.false_eq_true, if_false]

/-- C7, witness at the four behaviours: default-accepted 200,
default-rejected 418 and 404, and overridden 404. -/
theorem ok_responses_gate_witness :
    cmd [("uri", .str "http://h/s")] ⟨200, "ok"⟩ = .ok (200, "ok") ∧
    cmd [("uri", .str "http://h/s")] ⟨418, "t"⟩ = .error (.invocation 418) ∧
    cmd [("uri", .str "http://h/s")] ⟨404, "nf"⟩ = .error (.invocation 404) ∧
    cmd [("uri", .str "http://h/s"), ("ok_responses", .arr [.num 404])]
      ⟨404, "nf"⟩ = .ok (404, "nf") :=
  ⟨(ok_responses_gate "http://h/s" "ok" 200).1 (by decide),
   (ok_responses_gate "http://h/s" "t" 418).2.1 (by decide),
   (ok_responses_gate "http://h/s" "nf" 404).2.2.1,
   (ok_responses_gate "http://h/s" "nf" 404).2.2.2⟩

/-- Dropping all `form_data` entries leaves every other key's lookup
unchanged. -/
theorem lookup_filter_ne : ∀ (data : List (String × JSON)) (k : String),
    k ≠ "form_data" →
    (data.filter (fun kv => kv.1 != "form_data")).lookup k = data.lookup k := by
  intro data
  induction data with
  | nil => intro k hk; rfl
  | cons a as ih =>
    intro k hk
    obtain ⟨k', v⟩ := a
    by_cases h1 : k' = "form_data"
    · subst h1
      rw [List.filter_cons]
      simp only [bne_self_eq_false, Bool.false_eq_true, if_false]
      rw [ih k hk, List.lookup_cons]
      simp [beq_eq_false_iff_ne.mpr hk]
    · rw [List.filter_cons]
      simp only [bne_iff_ne, ne_eq, h1, not_false_eq_true, if_true]
      by_cases h2 : k = k'
      · subst h2
        simp [List.lookup_cons]
      · simp only [List.lookup_cons, beq_eq_false_iff_ne.mpr h2, ih k hk]

/-- After dropping all `form_data` entries, `form_data` is absent. -/
theorem lookup_filter_self : ∀ data : List (String × JSON),
    (data.filter (fun kv => kv.1 != "form_data")).lookup "form_data" = none := by
  intro data
  induction data with
  | nil => rfl
  | cons a as ih =>
    obtain ⟨k', v⟩ := a
    by_cases h1 : k' = "form_data"
    · subst h1
      rw [List.filter_cons]
      simp only [bne_self_eq_false, Bool.false_eq_true, if_false]
      exact ih
    · rw [List.filter_cons]
      simp only [bne_iff_ne, ne_eq, h1, not_false_eq_true, if_true]
      rw [List.lookup_cons]
      have : ("form_data" == k') = false :=
        beq_eq_false_iff_ne.mpr (fun hh => h1 hh.symm)
      simp only [this, Bool.false_eq_true, if_false]
      exact ih

/-- C10.  A present-but-empty `form_data` mapping behaves exactly as an
absent one: the empty dict is falsy, so no form-encoded body is built and
the (possibly absent) JSON body is what the request carries. -/
theorem empty_form_data_like_absent (data : List (String × JSON))
    (hfd : data.lookup "form_data" = some (.obj [])) :
    buildRequest data =
      buildRequest (data.filter (fun kv => kv.1 != "form_data")) ∧
    ∀ req, buildRequest data = .ok req →
      req.body = prepareBody none (cmdJsonData data) := by
  have hjson : cmdJsonData (data.filter (fun kv => kv.1 != "form_data")) =
      cmdJsonData data := by
    simp only [cmdJsonData, lookup_filter_ne data "json" (by decide)]
  constructor
  · simp only [buildRequest,
      lookup_filter_ne data "uri" (by decide),
      lookup_filter_ne data "method" (by decide),
      lookup_filter_ne data "headers" (by decide),
      lookup_filter_ne data "ssl_verify" (by decide),
      lookup_filter_self data, hfd, hjson, pyTruthy, List.isEmpty_nil,
      Bool.not_true, Bool.false_eq_true, if_false]
  · intro req hok
    simp only [buildRequest] at hok
    cases hu : data.lookup "uri" with
    | none => rw [hu] at hok; exact Except.noConfusion hok
    | some uri =>
      rw [hu] at hok
      cases hv : computeVerify ((data.lookup "ssl_verify").getD (.bool true)) with
      | error e => rw [hv] at hok; exact Except.noConfusion hok
      | ok verify =>
        rw [hv, hfd] at hok
        simp only [pyTruthy, List.isEmpty_nil, Bool.not_true, Bool.false_eq_true,
          if_false] at hok
        injection hok with hok
        subst hok
        rfl

/-- C10, witness: with `form_data` an empty mapping and a JSON body
present, the built request equals the one built without the `form_data`
key, and its body is the JSON body. -/
theorem empty_form_data_like_absent_witness :
    buildRequest [("uri", .str "http://h"), ("json", .obj [("a", .num 1)]),
        ("form_data", .obj [])] =
      buildRequest ([("uri", .str "http://h"), ("json", .obj [("a", .num 1)]),
        ("form_data", .obj [])].filter (fun kv => kv.1 != "form_data")) ∧
    PreparedRequest.body
        ⟨.str "GET", .str "http://h", .obj [], .flag true,
          .jsonBody (.obj [("a", .num 1)])⟩ =
      prepareBody none (cmdJsonData [("uri", .str "http://h"),
        ("json", .obj [("a", .num 1)]), ("form_data", .obj [])]) :=
  ⟨(empty_form_data_like_absent [("uri", .str "http://h"),
      ("json", .obj [("a", .num 1)]), ("form_data", .obj [])] rfl).1,
   (empty_form_data_like_absent [("uri", .str "http://h"),
      ("json", .obj [("a", .num 1)]), ("form_data", .obj [])] rfl).2
     ⟨.str "GET", .str "http://h", .obj [], .flag true,
       .jsonBody (.obj [("a", .num 1)])⟩ rfl⟩
